import Mathlib

/-!
Shallow embedding of the core of `nano-banana-mcp` (`src/index.ts`):
the color-distance engine, the border background detector, the
multi-color transparency compositor, the opaque-background flattener
switch, the in-memory polling-task registry, the progress reporter and
the orchestrator's path selection.

JavaScript strings are modelled as `List Char`; JavaScript `number`
values that the modelled code only ever uses at integral values are
modelled as `Nat`/`Int`, and the genuinely real-valued alpha arithmetic
of the compositor (which goes through `Math.sqrt`) is modelled over `ℝ`
with explicit rounding (`Math.round x = ⌊x + 1/2⌋`).
-/

namespace NanoBanana

/-! ### JavaScript string and number primitives -/

/-- `String.prototype.trim`: drop whitespace from both ends. -/
def jsTrim (s : List Char) : List Char :=
  ((s.dropWhile Char.isWhitespace).reverse.dropWhile Char.isWhitespace).reverse

/-- `String.prototype.toLowerCase` (ASCII-relevant part). -/
def jsToLower (s : List Char) : List Char := s.map Char.toLower

/-- `String.prototype.toUpperCase` (ASCII-relevant part). -/
def jsToUpper (s : List Char) : List Char := s.map Char.toUpper

/-- `Math.round` for non-negative finite numbers: round half toward `+∞`. -/
noncomputable def jsRound (x : ℝ) : ℤ := ⌊x + 1 / 2⌋

/-- `clampByte` from `src/index.ts`:
`value < 0 → 0`, `value > 255 → 255`, otherwise `Math.round value`. -/
noncomputable def clampByte (x : ℝ) : ℕ :=
  if x < 0 then 0 else if 255 < x then 255 else (jsRound x).toNat

/-- `clampByte` restricted to the natural-number inputs the integer code
paths feed it (where `Math.round` is the identity). -/
def clampByteNat (n : ℕ) : ℕ := min n 255

theorem jsRound_natCast (n : ℕ) : jsRound (n : ℝ) = n := by
  unfold jsRound
  rw [Int.floor_eq_iff]
  constructor
  · push_cast; linarith
  · push_cast; linarith

/-- On natural-number inputs the real `clampByte` agrees with `clampByteNat`. -/
theorem clampByte_natCast (n : ℕ) : clampByte (n : ℝ) = clampByteNat n := by
  unfold clampByte clampByteNat
  have h0 : ¬((n : ℝ) < 0) := not_lt.mpr (by positivity)
  rcases le_or_lt n 255 with h | h
  · rw [if_neg h0, if_neg (by exact_mod_cast not_lt.mpr h),
      jsRound_natCast, Int.toNat_natCast, min_eq_left h]
  · rw [if_neg h0, if_pos (by exact_mod_cast h), min_eq_right h.le]

/-- `Math.ceil (Math.sqrt n)` for a natural number `n`. -/
def natCeilSqrt (n : ℕ) : ℕ :=
  if Nat.sqrt n * Nat.sqrt n = n then Nat.sqrt n else Nat.sqrt n + 1

/-- `natCeilSqrt` is the ceiling of the real square root. -/
theorem natCeilSqrt_eq_ceil (n : ℕ) : (natCeilSqrt n : ℤ) = ⌈Real.sqrt n⌉ := by
  unfold natCeilSqrt
  split_ifs with h
  · rw [show (n : ℝ) = (Nat.sqrt n : ℝ) ^ 2 by rw [sq]; exact_mod_cast h.symm,
      Real.sqrt_sq (by positivity)]
    exact_mod_cast (Int.ceil_natCast (Nat.sqrt n)).symm
  · have hne : Nat.sqrt n ^ 2 ≠ n := by rw [sq]; exact h
    have hlow : (Nat.sqrt n : ℝ) < Real.sqrt n := by
      rw [show (Nat.sqrt n : ℝ) = Real.sqrt ((Nat.sqrt n : ℝ) ^ 2) by
        rw [Real.sqrt_sq (by positivity)]]
      apply Real.sqrt_lt_sqrt (by positivity)
      have hlt : Nat.sqrt n ^ 2 < n := lt_of_le_of_ne (Nat.sqrt_le' n) hne
      exact_mod_cast hlt
    have hhigh : Real.sqrt n ≤ (Nat.sqrt n : ℝ) + 1 := by
      rw [show ((Nat.sqrt n : ℝ) + 1) = Real.sqrt (((Nat.sqrt n : ℝ) + 1) ^ 2) by
        rw [Real.sqrt_sq (by positivity)]]
      apply Real.sqrt_le_sqrt
      have hlt : n < (Nat.sqrt n + 1) ^ 2 := Nat.lt_succ_sqrt' n
      exact_mod_cast hlt.le
    rw [eq_comm, Int.ceil_eq_iff]
    constructor
    · push_cast; simpa using hlow
    · push_cast; simpa using hhigh

/-! ### Color-distance engine -/

/-- An RGB triple (the TS object `{ r, g, b }`). -/
structure Color where
  r : ℕ
  g : ℕ
  b : ℕ
deriving DecidableEq, Repr

/-- Squared Euclidean RGB distance (the inlined `dr*dr + dg*dg + db*db`). -/
def distSq (a b : Color) : ℤ :=
  ((a.r : ℤ) - b.r) ^ 2 + ((a.g : ℤ) - b.g) ^ 2 + ((a.b : ℤ) - b.b) ^ 2

theorem distSq_nonneg (a b : Color) : 0 ≤ distSq a b := by
  unfold distSq; positivity

/-- Hex digit character for a value `< 16`, lowercase
(i.e. what `n.toString 16` produces per digit). -/
def hexDigitChar (n : ℕ) : Char :=
  if n < 10 then Char.ofNat (48 + n) else Char.ofNat (87 + n)

/-- Numeric value of a hex digit character (the per-character behavior of
`parseInt (·, 16)` on a character already validated as a hex digit). -/
def hexDigitVal (c : Char) : ℕ :=
  if 48 ≤ c.toNat ∧ c.toNat ≤ 57 then c.toNat - 48
  else if 97 ≤ c.toNat ∧ c.toNat ≤ 102 then c.toNat - 87
  else if 65 ≤ c.toNat ∧ c.toNat ≤ 70 then c.toNat - 55
  else 0

/-- Whether a character matches `[0-9a-fA-F]`. -/
def isHexDigitChar (c : Char) : Bool :=
  (48 ≤ c.toNat && c.toNat ≤ 57) || (97 ≤ c.toNat && c.toNat ≤ 102) ||
    (65 ≤ c.toNat && c.toNat ≤ 70)

/-- `(clampByte value).toString 16 |>.padStart 2 '0'`: two lowercase hex
digits for a byte. -/
def toHexByte (n : ℕ) : List Char :=
  [hexDigitChar (clampByteNat n / 16), hexDigitChar (clampByteNat n % 16)]

/-- `formatHexColor` from `src/index.ts`. -/
def formatHexColor (color : Color) : List Char :=
  '#' :: (toHexByte color.r ++ toHexByte color.g ++ toHexByte color.b)

/-- `parseHexColor` from `src/index.ts`: trim, drop an optional leading
`#`, require 3 or 6 hex digits, and decode. -/
def parseHexColor (input : List Char) : Except (List Char) Color :=
  let trimmed := jsTrim input
  let hex := match trimmed with
    | '#' :: rest => rest
    | l => l
  if hex.all isHexDigitChar then
    match hex with
    | [c1, c2, c3] =>
        .ok ⟨17 * hexDigitVal c1, 17 * hexDigitVal c2, 17 * hexDigitVal c3⟩
    | [c1, c2, c3, c4, c5, c6] =>
        .ok ⟨16 * hexDigitVal c1 + hexDigitVal c2,
             16 * hexDigitVal c3 + hexDigitVal c4,
             16 * hexDigitVal c5 + hexDigitVal c6⟩
    | _ => .error ("Invalid color.".toList)
  else .error ("Invalid color.".toList)

/-! ### Raster buffers

All buffers that reach the detector and the compositor have been put
through sharp's `ensureAlpha().raw()`, so reads are plain byte lookups in
a flat row-major array with `info.channels` channels per pixel. -/

/-- The `info` object of a sharp raw buffer. -/
structure RawInfo where
  width : ℕ
  height : ℕ
  channels : ℕ
deriving DecidableEq, Repr

/-- `data[i]` on a byte buffer. -/
def byteAt (data : List ℕ) (i : ℕ) : ℕ := data.getD i 0

/-- `index (x, y) = (y * width + x) * channels`. -/
def pixelIndex (info : RawInfo) (x y : ℕ) : ℕ := (y * info.width + x) * info.channels

/-- The RGB triple read at pixel `(x, y)`. -/
def colorAt (data : List ℕ) (info : RawInfo) (x y : ℕ) : Color :=
  ⟨byteAt data (pixelIndex info x y),
   byteAt data (pixelIndex info x y + 1),
   byteAt data (pixelIndex info x y + 2)⟩

/-! ### Background detector (`detectCheckerboardColorsFromBorder`) -/

/-- `Math.round (v / q)` for naturals with `q > 0`, as used by the border
quantizer: `⌊v / q + 1 / 2⌋ = (2 * v + q) / (2 * q)` in integer division. -/
def jsRoundDiv (v q : ℕ) : ℕ := (2 * v + q) / (2 * q)

/-- `jsRoundDiv` agrees with rounding the real quotient. -/
theorem jsRoundDiv_eq_jsRound (v q : ℕ) (hq : 0 < q) :
    (jsRoundDiv v q : ℤ) = jsRound ((v : ℝ) / q) := by
  unfold jsRoundDiv jsRound
  have hq2 : (0 : ℝ) < ((2 * q : ℕ) : ℝ) := by positivity
  rw [show (v : ℝ) / q + 1 / 2 = ((2 * v + q : ℕ) : ℝ) / ((2 * q : ℕ) : ℝ) by
    have hq0 : (q : ℝ) ≠ 0 := by positivity
    push_cast; field_simp; ring]
  rw [← Int.natCast_floor_eq_floor (by positivity),
    Nat.floor_div_eq_div (α := ℝ) (2 * v + q) (2 * q)]

/-- One channel of the border quantizer:
`clampByte (Math.round (r / quantizeStep) * quantizeStep)`. -/
def quantizeChannel (quantizeStep v : ℕ) : ℕ :=
  clampByteNat (jsRoundDiv v quantizeStep * quantizeStep)

/-- Quantize an RGB sample to its tally bucket. -/
def quantizeColor (quantizeStep : ℕ) (c : Color) : Color :=
  ⟨quantizeChannel quantizeStep c.r,
   quantizeChannel quantizeStep c.g,
   quantizeChannel quantizeStep c.b⟩

/-- The visited offsets of a loop `for (i = 0; i < limit; i += step)`. -/
def stepsFor (limit step : ℕ) : List ℕ :=
  (List.range ((limit + step - 1) / step)).map (· * step)

/-- The coordinates sampled by the two border loops, in program order:
top/bottom edges first, then left/right edges. -/
def borderSampleCoords (info : RawInfo) (sampleStep : ℕ) : List (ℕ × ℕ) :=
  (stepsFor info.width sampleStep).flatMap
      (fun x => [(x, 0), (x, info.height - 1)]) ++
    (stepsFor info.height sampleStep).flatMap
      (fun y => [(0, y), (info.width - 1, y)])

/-- The raw (unquantized) RGB samples collected along the border. -/
def borderSamples (data : List ℕ) (info : RawInfo) (sampleStep : ℕ) : List Color :=
  (borderSampleCoords info sampleStep).map (fun p => colorAt data info p.1 p.2)

/-- One step of a stable insertion sort: `le a b` means `a` may stay
before `b`. -/
def insertSorted {α : Type} (le : α → α → Bool) (x : α) : List α → List α
  | [] => [x]
  | y :: ys => if le x y then x :: y :: ys else y :: insertSorted le x ys

/-- `Array.prototype.sort` with a consistent comparator: the ECMA sort is
stable, and for a consistent comparator the stable result is the unique
stably-sorted permutation, so it is modelled by a structurally recursive
stable insertion sort (`le a b` = "`a` may stay before-or-equal `b`",
i.e. `comparator a b <= 0`). -/
def jsSortBy {α : Type} (le : α → α → Bool) : List α → List α
  | [] => []
  | x :: xs => insertSorted le x (jsSortBy le xs)

/-- One tally entry of the detector's `counts` map: the quantized color
and its occurrence count. -/
structure CandidateCount where
  color : Color
  count : ℕ
deriving DecidableEq, Repr

/-- Insert one quantized sample into the insertion-ordered tally
(JS `Map` keyed by the quantized triple, incremented in place). -/
def addTally (counts : List CandidateCount) (qc : Color) : List CandidateCount :=
  match counts with
  | [] => [⟨qc, 1⟩]
  | e :: rest =>
      if e.color = qc then ⟨e.color, e.count + 1⟩ :: rest
      else e :: addTally rest qc

/-- Return value of `detectCheckerboardColorsFromBorder`. -/
structure DetectResult where
  colors : List Color
  sampleCount : ℕ
  coverage : ℚ
  samples : List Color
deriving DecidableEq, Repr

/-- `detectCheckerboardColorsFromBorder` from `src/index.ts`. -/
def detectCheckerboardColorsFromBorder (data : List ℕ) (info : RawInfo)
    (sampleStepOpt quantizeStepOpt maxColorsOpt : Option ℕ) : DetectResult :=
  let sampleStep :=
    sampleStepOpt.getD (max 1 (jsRoundDiv (min info.width info.height) 64))
  let quantizeStep := max 1 (quantizeStepOpt.getD 8)
  let maxColors := max 1 (maxColorsOpt.getD 2)
  let samples := borderSamples data info sampleStep
  let counts :=
    samples.foldl (fun cs c => addTally cs (quantizeColor quantizeStep c)) []
  let sampleCount := samples.length
  let sorted := jsSortBy (fun a b => Nat.ble b.count a.count) counts
  let colors := (sorted.take maxColors).map (·.color)
  let topSamples := ((sorted.take maxColors).map (·.count)).sum
  let coverage :=
    if 0 < sampleCount then (topSamples : ℚ) / (sampleCount : ℚ) else 0
  ⟨colors, sampleCount, coverage, samples⟩

/-! ### Transparency compositor (`applyMultiColorKeyToRaw`) -/

/-- The fold computing `minDistSq` over the reference colors. The source
starts from `+∞` and keeps the strict minimum; on a non-empty list that
is the plain minimum (the empty case is unreachable: the function errors
out first). -/
def minDistSqTo (p : Color) (colors : List Color) : ℤ :=
  match colors with
  | [] => 0
  | c :: rest => rest.foldl (fun m c2 => min m (distSq p c2)) (distSq p c)

/-- The per-pixel `alphaFactor`: `0` inside the tolerance ball, the linear
feather ramp `(dist - tolerance) / feather` in the feather band, else `1`. -/
noncomputable def alphaFactor (minD : ℤ) (tolerance feather : ℕ) : ℝ :=
  if minD ≤ (tolerance : ℤ) * tolerance then 0
  else if 0 < feather ∧
      minD < ((tolerance : ℤ) + feather) * ((tolerance : ℤ) + feather) then
    (Real.sqrt (minD : ℝ) - (tolerance : ℝ)) / (feather : ℝ)
  else 1

/-- `data[i + 3] = clampByte (originalAlpha * alphaFactor)`. -/
noncomputable def keyedAlpha (originalAlpha : ℕ) (minD : ℤ)
    (tolerance feather : ℕ) : ℕ :=
  clampByte ((originalAlpha : ℝ) * alphaFactor minD tolerance feather)

/-- The per-pixel loop over the flat RGBA byte array (after `ensureAlpha`
the buffer has 4 channels; a trailing fragment shorter than one pixel is
left untouched, matching the out-of-range `Buffer` write being a no-op). -/
noncomputable def applyKeyToData (colors : List Color) (tolerance feather : ℕ) :
    List ℕ → List ℕ
  | r :: g :: b :: a :: rest =>
      r :: g :: b ::
        keyedAlpha a (minDistSqTo ⟨r, g, b⟩ colors) tolerance feather ::
        applyKeyToData colors tolerance feather rest
  | l => l

/-- `applyMultiColorKeyToRaw` from `src/index.ts`: error on an empty
reference color list, otherwise clamp tolerance/feather and rewrite every
pixel's alpha. The result is re-encoded with the unchanged `info`
(width/height/channels), modelled by returning `info` alongside. -/
noncomputable def applyMultiColorKeyToRaw (data : List ℕ) (info : RawInfo)
    (colors : List Color) (toleranceOpt featherOpt : Option ℕ) :
    Except (List Char) (List ℕ × RawInfo) :=
  if colors = [] then
    .error "No background colors detected for transparency.".toList
  else
    let tolerance := clampByteNat (toleranceOpt.getD 12)
    let feather := clampByteNat (featherOpt.getD 0)
    .ok (applyKeyToData colors tolerance feather data, info)

/-! ### Automatic multi-color transparency (`applyAutoKeyTransparency`) -/

/-- The fallback selection inside `applyAutoKeyTransparency`: detector
output is kept unless coverage is below `0.5` or no color was detected,
in which case the caller-supplied fallback becomes the single reference
color, and its absence is an error. -/
def selectKeyColors (detected : List Color) (coverage : ℚ)
    (fallbackColor : Option Color) : Except (List Char) (List Color × Bool) :=
  if coverage < 1 / 2 ∨ detected = [] then
    match fallbackColor with
    | some c => .ok ([c], true)
    | none => .error "Failed to detect background colors for transparency.".toList
  else .ok (detected, false)

/-- The auto-tolerance estimation of `applyAutoKeyTransparency`, run when
the caller supplies no explicit tolerance: ascending sort of the samples'
minimum squared distances, the entry at index `⌊0.9 * length⌋` (`0` when
there are no samples), then `clampByte (Math.ceil (Math.sqrt percentile) + 6)`.
`Math.floor (length * 0.9)` is exact at `length * 9 / 10` for the list
lengths arising here. -/
def autoPercentileSq (samples : List Color) (selectedColors : List Color) : ℕ :=
  let distances := samples.map (fun s => minDistSqTo s selectedColors)
  let sorted := jsSortBy (fun a b => decide (a ≤ b)) distances
  let percentileIndex := distances.length * 9 / 10
  if 0 < distances.length then (sorted.getD percentileIndex 0).toNat else 0

/-- The tolerance actually computed from the percentile:
`clampByte (Math.ceil (Math.sqrt percentile) + 6)`. -/
def autoTolerance (samples : List Color) (selectedColors : List Color) : ℕ :=
  clampByteNat (natCeilSqrt (autoPercentileSq samples selectedColors) + 6)

/-- Return value of `applyAutoKeyTransparency`. -/
structure AutoKeyResult where
  outputBuffer : List ℕ × RawInfo
  colors : List Color
  coverage : ℚ
  usedFallback : Bool

/-- `applyAutoKeyTransparency` from `src/index.ts`, on the decoded raw
buffer: detect border colors, fall back if unreliable, auto-estimate the
tolerance when none is given, then run the multi-color key. -/
noncomputable def applyAutoKeyTransparency (data : List ℕ) (info : RawInfo)
    (fallbackColor : Option Color)
    (toleranceOpt featherOpt sampleStepOpt quantizeStepOpt maxColorsOpt : Option ℕ) :
    Except (List Char) AutoKeyResult :=
  let det := detectCheckerboardColorsFromBorder data info
    sampleStepOpt quantizeStepOpt maxColorsOpt
  match selectKeyColors det.colors det.coverage fallbackColor with
  | .error e => .error e
  | .ok (selectedColors, usedFallback) =>
      let tolerance :=
        match toleranceOpt with
        | some t => t
        | none => autoTolerance det.samples selectedColors
      match applyMultiColorKeyToRaw data info selectedColors
          (some tolerance) featherOpt with
      | .error e => .error e
      | .ok out => .ok ⟨out, selectedColors, det.coverage, usedFallback⟩

/-! ### Task registry -/

/-- The MCP `CallToolResult` as far as the registry observes it: a list of
text contents and the error flag (absent `isError` is falsy, i.e. `false`). -/
structure CallToolResult where
  content : List (List Char)
  isError : Bool := false
deriving DecidableEq, Repr

/-- `buildErrorResult` from `src/index.ts`. -/
def buildErrorResult (message : List Char) : CallToolResult :=
  ⟨["Nano Banana error: ".toList ++ message], true⟩

inductive PollingTaskStatus
  | queued
  | working
  | completed
  | failed
deriving DecidableEq, Repr

structure PollingTask where
  taskId : List Char
  status : PollingTaskStatus
  createdAt : ℤ
  expiresAt : Option ℤ := none
  result : Option CallToolResult := none
deriving DecidableEq, Repr

/-- `Map.get` on a JS `Map` modelled as an insertion-ordered assoc list. -/
def mapGet {α : Type} (k : List Char) (m : List (List Char × α)) : Option α :=
  (m.find? (fun p => p.1 == k)).map (·.2)

/-- `Map.set`: replace in place if the key exists, else append. -/
def mapSet {α : Type} (k : List Char) (v : α) :
    List (List Char × α) → List (List Char × α)
  | [] => [(k, v)]
  | p :: rest => if p.1 == k then (k, v) :: rest else p :: mapSet k v rest

/-- `Map.delete`: remove the (first) entry with the key. -/
def mapDelete {α : Type} (k : List Char) :
    List (List Char × α) → List (List Char × α)
  | [] => []
  | p :: rest => if p.1 == k then rest else p :: mapDelete k rest

/-- The module state owned by the registry: the `pollingTasks` map, the
`pollingTaskTimers` map (each pending `setTimeout` with its firing time),
the current clock, and the `DEFAULT_AUTO_TASK_TTL_MS` configuration
(`none` = expiry disabled). -/
structure RegistryState where
  pollingTasks : List (List Char × PollingTask)
  pollingTaskTimers : List (List Char × ℤ)
  now : ℤ
  autoTaskTtlMs : Option ℤ
deriving DecidableEq, Repr

/-- `resolveAutoTaskTtlMs` from `src/index.ts`, with the env string already
parsed: an unset or non-numeric value is `none` here (both yield the
default), a parsed number is kept when positive and disables expiry
otherwise. -/
def resolveAutoTaskTtlMs (raw : Option ℤ) : Option ℤ :=
  match raw with
  | none => some (20 * 60 * 1000)
  | some parsed => if 0 < parsed then some parsed else none

/-- `clearPollingTaskTimer`: `clearTimeout` plus removal from the timer map. -/
def clearPollingTaskTimer (taskId : List Char) (st : RegistryState) : RegistryState :=
  { st with pollingTaskTimers := mapDelete taskId st.pollingTaskTimers }

/-- `schedulePollingTaskCleanup`: a no-op when the TTL is disabled;
otherwise cancel any pending timer for the id, stamp the task's
`expiresAt`, and schedule a removal at `now + ttl`. -/
def schedulePollingTaskCleanup (taskId : List Char) (st : RegistryState) : RegistryState :=
  match st.autoTaskTtlMs with
  | none => st
  | some ttl =>
      let st1 := clearPollingTaskTimer taskId st
      let stampedTasks :=
        match mapGet taskId st1.pollingTasks with
        | none => st1.pollingTasks
        | some task =>
            mapSet taskId { task with expiresAt := some (st.now + ttl) }
              st1.pollingTasks
      let st2 := { st1 with pollingTasks := stampedTasks }
      { st2 with pollingTaskTimers := mapSet taskId (st.now + ttl) st2.pollingTaskTimers }

/-- `createPollingTask` (the fresh `randomUUID` is passed in as `taskId`). -/
def createPollingTask (taskId : List Char) (st : RegistryState) :
    RegistryState × PollingTask :=
  let task : PollingTask := ⟨taskId, .queued, st.now, none, none⟩
  ({ st with pollingTasks := mapSet taskId task st.pollingTasks }, task)

/-- `setPollingTaskStatus`: a no-op when the task is absent. -/
def setPollingTaskStatus (taskId : List Char) (status : PollingTaskStatus)
    (st : RegistryState) : RegistryState :=
  match mapGet taskId st.pollingTasks with
  | none => st
  | some task =>
      { st with pollingTasks := mapSet taskId { task with status := status } st.pollingTasks }

/-- `storePollingTaskResult` from `src/index.ts`: no-op when absent, else
set the terminal status from the result's error flag, store the result,
and schedule cleanup. -/
def storePollingTaskResult (taskId : List Char) (result : CallToolResult)
    (st : RegistryState) : RegistryState :=
  match mapGet taskId st.pollingTasks with
  | none => st
  | some task =>
      let updated :=
        { task with
          status := if result.isError then .failed else .completed,
          result := some result }
      schedulePollingTaskCleanup taskId
        { st with pollingTasks := mapSet taskId updated st.pollingTasks }

/-- The lookup `pollingTasks.get taskId` behind `handleGetPollingTask`;
`none` is surfaced to the caller as the task-not-found error result. -/
def getPollingTask (taskId : List Char) (st : RegistryState) : Option PollingTask :=
  mapGet taskId st.pollingTasks

/-- Whether the timer for `taskId` is due at time `t`. -/
def timerDue (t : ℤ) (st : RegistryState) (taskId : List Char) : Bool :=
  match mapGet taskId st.pollingTaskTimers with
  | some fireAt => decide (fireAt ≤ t)
  | none => false

/-- Advance the clock to `t` and fire every due timer: each fired
`setTimeout` callback deletes its task and its timer entry. -/
def elapse (t : ℤ) (st : RegistryState) : RegistryState :=
  { st with
    now := t
    pollingTasks := st.pollingTasks.filter (fun p => !(timerDue t st p.1))
    pollingTaskTimers := st.pollingTaskTimers.filter (fun q => !(decide (q.2 ≤ t))) }

/-! ### Progress reporter (`createProgressReporter`) -/

/-- A `notifications/progress` payload as far as the reporter fills it. -/
structure ProgressNotice where
  progress : ℕ
  message : Option (List Char)
deriving DecidableEq, Repr

/-- The closure state of one reporter: the `progress` counter and the
`disabled` latch. -/
structure ProgressState where
  progress : ℕ
  disabled : Bool
deriving DecidableEq, Repr

/-- Whether the transport delivers one `sendNotification` or rejects. -/
inductive EmitOutcome
  | success
  | failure
deriving DecidableEq, Repr

/-- The `...(message ? { message } : {})` spread: an empty (falsy) message
is omitted from the payload. -/
def messageField (message : Option (List Char)) : Option (List Char) :=
  match message with
  | some m => if m = [] then none else some m
  | none => none

/-- One call to `report`: a no-op when disabled; otherwise increment the
counter and attempt the notification, whose rejection is caught and trips
the `disabled` latch (nothing is ever thrown to the caller). Returns the
new state and the delivered notification, if any. -/
def report (st : ProgressState) (message : Option (List Char))
    (emit : EmitOutcome) : ProgressState × Option ProgressNotice :=
  if st.disabled then (st, none)
  else
    match emit with
    | .success =>
        ({ st with progress := st.progress + 1 },
          some ⟨st.progress + 1, messageField message⟩)
    | .failure => (⟨st.progress + 1, true⟩, none)

/-- A sequence of `report` calls, collecting the delivered notifications. -/
def runReports (st : ProgressState) :
    List (Option (List Char) × EmitOutcome) → ProgressState × List ProgressNotice
  | [] => (st, [])
  | (msg, emit) :: rest =>
      let step := report st msg emit
      let tail := runReports step.1 rest
      (tail.1, step.2.toList ++ tail.2)

/-! ### Orchestrator path selection (`CallToolRequestSchema` handler) -/

/-- `normalizeImageSize`: trim, `null` when empty, else uppercase. -/
def normalizeImageSize (value : Option (List Char)) : Option (List Char) :=
  match value with
  | none => none
  | some v =>
      let trimmed := jsTrim v
      if trimmed = [] then none else some (jsToUpper trimmed)

/-- `shouldAutoTaskFor4k` from `src/index.ts` (`autoTask4kEnabled` is the
`DEFAULT_AUTO_TASK_4K` env switch). -/
def shouldAutoTaskFor4k (autoTask4kEnabled : Bool) (toolName : List Char)
    (imageSize : Option (List Char)) : Bool :=
  if !autoTask4kEnabled then false
  else if toolName ≠ "nano_banana_generate_image".toList then false
  else normalizeImageSize imageSize == some ("4K".toList)

/-- The three handling paths of the tool-call handler. -/
inductive HandlingPath
  | externalTask
  | registryTask
  | synchronous
deriving DecidableEq, Repr

/-- The branch structure of the `CallToolRequestSchema` handler:
`request.params.task` present takes the external task-store path;
otherwise `autoTask = !taskParams && shouldAutoTaskFor4k ...` selects the
internal polling-task path; otherwise the call runs synchronously. -/
def choosePath (hasTaskParams : Bool) (autoTask4kEnabled : Bool)
    (toolName : List Char) (imageSize : Option (List Char)) : HandlingPath :=
  let autoTask := !hasTaskParams &&
    shouldAutoTaskFor4k autoTask4kEnabled toolName imageSize
  if hasTaskParams then .externalTask
  else if autoTask then .registryTask
  else .synchronous

/-! ### Opaque-background flattener switch -/

/-- `OpaqueBackgroundSetting` (`null` is `Option.none` at the use sites). -/
inductive OpaqueBackgroundSetting
  | auto
  | fixed (color : Color) (raw : List Char)
deriving DecidableEq, Repr

/-- `resolveOpaqueBackgroundSetting` from `src/index.ts`: explicit value or
the `DEFAULT_OPAQUE_BACKGROUND_COLOR` default, trimmed; empty and the
disable keywords resolve to `none`; `"auto"` keeps auto mode; anything
else must parse as a hex color. -/
def resolveOpaqueBackgroundSetting (value : Option (List Char))
    (defaultOpaqueBackgroundColor : List Char) :
    Except (List Char) (Option OpaqueBackgroundSetting) :=
  let raw := match value with
    | some v => jsTrim v
    | none => jsTrim defaultOpaqueBackgroundColor
  if raw = [] then .ok none
  else
    let normalized := jsToLower raw
    if normalized = "off".toList ∨ normalized = "none".toList ∨
        normalized = "false".toList ∨ normalized = "no".toList ∨
        normalized = "disable".toList ∨ normalized = "disabled".toList then
      .ok none
    else if normalized = "auto".toList then .ok (some .auto)
    else (parseHexColor raw).map (fun c => some (.fixed c raw))

/-- The per-image persist step of `handleGenerateImage` (lines 1396-1416):
when the opaque setting resolved to `null` the decoded buffer is returned
unchanged; otherwise it is flattened onto the resolved background (the
sharp `flatten` composite is an external collaborator, abstracted as the
`flatten` argument). -/
def processGeneratedImage (flatten : List ℕ → List ℕ)
    (setting : Option OpaqueBackgroundSetting) (rawBuffer : List ℕ) : List ℕ :=
  match setting with
  | none => rawBuffer
  | some _ => flatten rawBuffer

/-! ## Theorems -/

/-- Helper: once the `disabled` latch is set, any sequence of further
`report` calls leaves the state unchanged and delivers nothing. -/
theorem runReports_disabled (st : ProgressState) (h : st.disabled = true) :
    ∀ cs, runReports st cs = (st, []) := by
  intro cs
  induction cs with
  | nil => rfl
  | cons c rest ih =>
      obtain ⟨msg, emit⟩ := c
      simp only [runReports, report, h, if_pos]
      simpa using ih

/-- C7: for every incoming tool call exactly one of the three handling
paths runs — the external task-store path iff the caller sent
`request.params.task`, the internal polling-task path iff no task was
requested and `shouldAutoTaskFor4k` matches, and the synchronous path
otherwise; the three branches are mutually exclusive and exhaustive. -/
theorem choosePath_exclusive_exhaustive (hasTaskParams autoTask4kEnabled : Bool)
    (toolName : List Char) (imageSize : Option (List Char)) :
    (choosePath hasTaskParams autoTask4kEnabled toolName imageSize = .externalTask ↔
      hasTaskParams = true) ∧
    (choosePath hasTaskParams autoTask4kEnabled toolName imageSize = .registryTask ↔
      (hasTaskParams = false ∧
        shouldAutoTaskFor4k autoTask4kEnabled toolName imageSize = true)) ∧
    (choosePath hasTaskParams autoTask4kEnabled toolName imageSize = .synchronous ↔
      (hasTaskParams = false ∧
        shouldAutoTaskFor4k autoTask4kEnabled toolName imageSize = false)) := by
  cases hasTaskParams <;>
    cases h : shouldAutoTaskFor4k autoTask4kEnabled toolName imageSize <;>
      simp [choosePath, h]

/-- C8: on a live session each successful `report` increments the
progress counter by one and delivers a notification carrying the new
counter and the message, while a failed emission trips the `disabled`
latch, after which every further `report` call is a no-op delivering
nothing (and `report` always returns instead of raising). -/
theorem progressReporter_counter_and_disable (st : ProgressState)
    (msg failMsg : Option (List Char))
    (calls : List (Option (List Char) × EmitOutcome))
    (h : st.disabled = false) :
    (report st msg .success).1.progress = st.progress + 1 ∧
    (report st msg .success).1.disabled = false ∧
    (report st msg .success).2 = some ⟨st.progress + 1, messageField msg⟩ ∧
    (report st failMsg .failure).1.disabled = true ∧
    runReports (report st failMsg .failure).1 calls =
      ((report st failMsg .failure).1, []) := by
  refine ⟨by simp [report, h], by simp [report, h], by simp [report, h],
    by simp [report, h], ?_⟩
  exact runReports_disabled _ (by simp [report, h]) calls

/-- Witness for C8 at a concrete live session and a nonempty tail of
subsequent calls. -/
theorem progressReporter_counter_and_disable_witness :
    (ProgressState.mk 0 false).disabled = false ∧
    ((report ⟨0, false⟩ (some ("step".toList)) .success).1.progress = 0 + 1 ∧
    (report ⟨0, false⟩ (some ("step".toList)) .success).1.disabled = false ∧
    (report ⟨0, false⟩ (some ("step".toList)) .success).2 =
      some ⟨0 + 1, messageField (some ("step".toList))⟩ ∧
    (report ⟨0, false⟩ none .failure).1.disabled = true ∧
    runReports (report ⟨0, false⟩ none .failure).1 [(none, .success)] =
      ((report ⟨0, false⟩ none .failure).1, [])) :=
  ⟨by decide,
    progressReporter_counter_and_disable ⟨0, false⟩ (some ("step".toList)) none
      [(none, .success)] (by decide)⟩

/-- C9: a caller value whose trimmed, lowercased form is `"off"`,
`"none"` or `"false"` resolves the opaque-background setting to `null`,
and with a `null` setting the persist step of `handleGenerateImage`
returns every decoded image buffer unchanged (alpha bytes included). -/
theorem opaqueBackground_off_passthrough (value dflt : List Char)
    (flatten : List ℕ → List ℕ) (rawBuffer : List ℕ)
    (h : jsToLower (jsTrim value) = "off".toList ∨
         jsToLower (jsTrim value) = "none".toList ∨
         jsToLower (jsTrim value) = "false".toList) :
    resolveOpaqueBackgroundSetting (some value) dflt = .ok none ∧
    processGeneratedImage flatten none rawBuffer = rawBuffer := by
  constructor
  · have hne : jsTrim value ≠ [] := by
      intro hnil
      rcases h with h | h | h <;> simp [jsToLower, hnil] at h
    unfold resolveOpaqueBackgroundSetting
    simp only [if_neg hne]
    rw [if_pos]
    rcases h with h | h | h
    · exact Or.inl h
    · exact Or.inr (Or.inl h)
    · exact Or.inr (Or.inr (Or.inl h))
  · rfl

/-- Witness for C9: the literal value `" OFF "`. -/
theorem opaqueBackground_off_passthrough_witness :
    (jsToLower (jsTrim " OFF ".toList) = "off".toList ∨
     jsToLower (jsTrim " OFF ".toList) = "none".toList ∨
     jsToLower (jsTrim " OFF ".toList) = "false".toList) ∧
    (resolveOpaqueBackgroundSetting (some (" OFF ".toList)) ("auto".toList) = .ok none ∧
     processGeneratedImage id none [0, 1, 2, 3] = [0, 1, 2, 3]) :=
  ⟨by decide,
    opaqueBackground_off_passthrough (" OFF ".toList) ("auto".toList) id [0, 1, 2, 3]
      (by decide)⟩

/-- C1 (evaluating the code at the failing input): the registry's
`storePollingTaskResult` does not implement first-write-wins — after a
first stored result `r1`, a second call with a different result `r2`
overwrites both the stored result and the terminal status. -/
theorem storePollingTaskResult_overwrites_first_result :
    let st0 : RegistryState := ⟨[], [], 0, none⟩
    let st1 := (createPollingTask ("t".toList) st0).1
    let r1 : CallToolResult := ⟨["first".toList], false⟩
    let r2 : CallToolResult := ⟨["second".toList], true⟩
    let st2 := storePollingTaskResult ("t".toList) r1 st1
    let st3 := storePollingTaskResult ("t".toList) r2 st2
    r1 ≠ r2 ∧
    (getPollingTask ("t".toList) st2).map PollingTask.result = some (some r1) ∧
    (getPollingTask ("t".toList) st2).map PollingTask.status = some .completed ∧
    (getPollingTask ("t".toList) st3).map PollingTask.result = some (some r2) ∧
    (getPollingTask ("t".toList) st3).map PollingTask.status = some .failed := by
  decide

/-! ### Assoc-list map lemmas for the registry -/

/-- Number of entries of a map carrying a given key. -/
def countKey {α : Type} (k : List Char) (m : List (List Char × α)) : ℕ :=
  (m.filter (fun p => p.1 == k)).length

theorem mapGet_mapSet_self {α : Type} (k : List Char) (v : α)
    (m : List (List Char × α)) : mapGet k (mapSet k v m) = some v := by
  induction m with
  | nil => simp [mapSet, mapGet]
  | cons p rest ih =>
      cases h : (p.1 == k) with
      | true => simp [mapSet, mapGet, h]
      | false =>
          simp only [mapSet, h, Bool.false_eq_true, if_false]
          unfold mapGet
          rw [List.find?_cons_of_neg _ (by simp [h])]
          exact ih

theorem mapGet_filter_eq_none {α : Type} (k : List Char)
    (m : List (List Char × α)) (f : List Char × α → Bool)
    (h : ∀ p ∈ m, p.1 = k → f p = false) : mapGet k (m.filter f) = none := by
  induction m with
  | nil => rfl
  | cons p rest ih =>
      have ih2 := ih (fun q hq => h q (List.mem_cons_of_mem p hq))
      cases hf : f p with
      | true =>
          have hk : ¬(p.1 = k) := fun he => by
            have := h p (List.mem_cons_self p rest) he
            rw [hf] at this
            exact Bool.true_eq_false.mp this
          have hbeq : (p.1 == k) = false := beq_eq_false_iff_ne.mpr hk
          simp only [List.filter_cons, hf, if_pos]
          unfold mapGet
          rw [List.find?_cons_of_neg _ (by simp [hbeq])]
          exact ih2
      | false => simpa [List.filter_cons, hf] using ih2

theorem countKey_mapDelete {α : Type} (k : List Char) (m : List (List Char × α)) :
    countKey k (mapDelete k m) = countKey k m - 1 := by
  induction m with
  | nil => rfl
  | cons p rest ih =>
      cases h : (p.1 == k) with
      | true => simp [mapDelete, countKey, h, List.filter_cons]
      | false =>
          simp only [mapDelete, h, Bool.false_eq_true, if_false]
          simpa [countKey, List.filter_cons, h] using ih

theorem countKey_mapSet {α : Type} (k : List Char) (v : α)
    (m : List (List Char × α)) :
    countKey k (mapSet k v m) = max (countKey k m) 1 := by
  induction m with
  | nil => simp [mapSet, countKey]
  | cons p rest ih =>
      cases h : (p.1 == k) with
      | true => simp [mapSet, countKey, h, List.filter_cons]
      | false =>
          simp only [mapSet, h, Bool.false_eq_true, if_false]
          simpa [countKey, List.filter_cons, h] using ih

/-- `storePollingTaskResult` never touches the clock or the TTL config. -/
theorem storePollingTaskResult_preserves_config (taskId : List Char)
    (r : CallToolResult) (st : RegistryState) :
    (storePollingTaskResult taskId r st).now = st.now ∧
    (storePollingTaskResult taskId r st).autoTaskTtlMs = st.autoTaskTtlMs := by
  unfold storePollingTaskResult schedulePollingTaskCleanup clearPollingTaskTimer
  cases mapGet taskId st.pollingTasks <;> simp <;> split <;> simp

/-- After `storePollingTaskResult` on a present task the task is still
present (with the terminal status and the stored result). -/
theorem getPollingTask_after_store (taskId : List Char) (r : CallToolResult)
    (st : RegistryState) (task : PollingTask)
    (htask : mapGet taskId st.pollingTasks = some task) :
    ∃ task2, getPollingTask taskId (storePollingTaskResult taskId r st) = some task2 ∧
      task2.status = (if r.isError then .failed else .completed) ∧
      task2.result = some r := by
  unfold storePollingTaskResult
  rw [htask]
  unfold getPollingTask schedulePollingTaskCleanup clearPollingTaskTimer
  cases hc : st.autoTaskTtlMs with
  | none => exact ⟨_, mapGet_mapSet_self _ _ _, rfl, rfl⟩
  | some ttl =>
      simp only
      rw [mapGet_mapSet_self]
      cases hg : mapGet taskId
          (mapSet taskId
            { task with
              status := if r.isError then .failed else .completed,
              result := some r } st.pollingTasks) with
      | none =>
          rw [mapGet_mapSet_self] at hg
          exact absurd hg (by simp)
      | some t2 =>
          rw [mapGet_mapSet_self] at hg
          exact ⟨_, mapGet_mapSet_self _ _ _, by
            cases hg; exact ⟨rfl, rfl⟩⟩

/-- With a positive TTL, `storePollingTaskResult` on a present task leaves
the timer map as: previous timer for the id cancelled, one fresh timer at
`now + ttl`. -/
theorem store_timers_eq (st : RegistryState) (id : List Char)
    (r : CallToolResult) (task : PollingTask) (T : ℤ)
    (hp : mapGet id st.pollingTasks = some task)
    (ht : st.autoTaskTtlMs = some T) :
    (storePollingTaskResult id r st).pollingTaskTimers =
      mapSet id (st.now + T) (mapDelete id st.pollingTaskTimers) := by
  unfold storePollingTaskResult
  rw [hp]
  unfold schedulePollingTaskCleanup clearPollingTaskTimer
  simp only [ht]

/-- With expiry disabled, `storePollingTaskResult` only rewrites the task
map. -/
theorem store_disabled_eq (st : RegistryState) (id : List Char)
    (r : CallToolResult) (task : PollingTask)
    (hp : mapGet id st.pollingTasks = some task)
    (ht : st.autoTaskTtlMs = none) :
    storePollingTaskResult id r st =
      { st with pollingTasks := (mapSet id
          { task with
            status := if r.isError then .failed else .completed,
            result := some r } st.pollingTasks) } := by
  unfold storePollingTaskResult
  rw [hp]
  unfold schedulePollingTaskCleanup
  simp only [ht]

/-- C4: the task-registry expiry contract. With a zero-or-negative
configured TTL the config resolves to disabled; with expiry disabled a
task that received its result stays reachable through `get` at every
later time; with a positive TTL exactly one removal timer exists for the
id right after `storeResult`, the task is gone from `get` once the TTL
has elapsed after `storeResult`, and a repeated `storeResult` cancels and
reschedules, again leaving exactly one timer. -/
theorem pollingTask_expiry
    (z T : ℤ) (hz : z ≤ 0) (hT : 0 < T)
    (stN stP : RegistryState) (idN idP : List Char) (r : CallToolResult)
    (hN : stN.autoTaskTtlMs = none) (hNt : stN.pollingTaskTimers = [])
    (taskN : PollingTask) (hNp : mapGet idN stN.pollingTasks = some taskN)
    (hP : stP.autoTaskTtlMs = some T)
    (taskP : PollingTask) (hPp : mapGet idP stP.pollingTasks = some taskP)
    (hPcnt : countKey idP stP.pollingTaskTimers ≤ 1) :
    resolveAutoTaskTtlMs (some z) = none ∧
    (∀ t : ℤ, getPollingTask idN (elapse t (storePollingTaskResult idN r stN)) =
      getPollingTask idN (storePollingTaskResult idN r stN)) ∧
    getPollingTask idN (storePollingTaskResult idN r stN) ≠ none ∧
    countKey idP (storePollingTaskResult idP r stP).pollingTaskTimers = 1 ∧
    (∀ t : ℤ, stP.now + T ≤ t →
      getPollingTask idP (elapse t (storePollingTaskResult idP r stP)) = none) ∧
    countKey idP (storePollingTaskResult idP r
      (storePollingTaskResult idP r stP)).pollingTaskTimers = 1 := by
  have hstN := store_disabled_eq stN idN r taskN hNp hN
  refine ⟨?_, ?_, ?_, ?_, ?_, ?_⟩
  · simp [resolveAutoTaskTtlMs, not_lt.mpr hz]
  · intro t
    rw [hstN]
    unfold elapse getPollingTask
    simp only
    congr 1
    apply List.filter_eq_self.mpr
    intro p _
    unfold timerDue
    have : mapGet p.1 (mapDelete idN stN.pollingTaskTimers) = none := by
      rw [hNt]; rfl
    simp [hNt, mapGet]
  · rw [hstN]
    unfold getPollingTask
    simp only
    rw [mapGet_mapSet_self]
    exact Option.some_ne_none _
  · rw [store_timers_eq stP idP r taskP T hPp hP, countKey_mapSet,
      countKey_mapDelete]
    omega
  · intro t htle
    unfold elapse getPollingTask
    simp only
    apply mapGet_filter_eq_none
    intro p _ hpk
    rw [hpk]
    unfold timerDue
    rw [store_timers_eq stP idP r taskP T hPp hP, mapGet_mapSet_self]
    have hcfg := storePollingTaskResult_preserves_config idP r stP
    simp [decide_eq_true_eq, htle]
  · obtain ⟨taskP2, hP2, -, -⟩ := getPollingTask_after_store idP r stP taskP hPp
    have hcfg := storePollingTaskResult_preserves_config idP r stP
    rw [store_timers_eq (storePollingTaskResult idP r stP) idP r taskP2 T hP2
      (by rw [hcfg.2, hP]), countKey_mapSet, countKey_mapDelete,
      store_timers_eq stP idP r taskP T hPp hP, countKey_mapSet,
      countKey_mapDelete]
    omega

/-- Witness for C4 at a concrete one-task registry in each configuration. -/
theorem pollingTask_expiry_witness :
    ((-3 : ℤ) ≤ 0 ∧ (0 : ℤ) < 5 ∧
     (RegistryState.mk [("t".toList, ⟨"t".toList, .working, 0, none, none⟩)] [] 0
        none).autoTaskTtlMs = none) ∧
    (getPollingTask ("t".toList)
        (elapse 999
          (storePollingTaskResult ("t".toList) ⟨[], false⟩
            ⟨[("t".toList, ⟨"t".toList, .working, 0, none, none⟩)], [], 0, none⟩)) =
      getPollingTask ("t".toList)
        (storePollingTaskResult ("t".toList) ⟨[], false⟩
          ⟨[("t".toList, ⟨"t".toList, .working, 0, none, none⟩)], [], 0, none⟩)) ∧
    (getPollingTask ("t".toList)
        (elapse 5
          (storePollingTaskResult ("t".toList) ⟨[], false⟩
            ⟨[("t".toList, ⟨"t".toList, .working, 0, none, none⟩)], [], 0, some 5⟩)) =
      none) := by
  have h := pollingTask_expiry (-3) 5 (by decide) (by decide)
    ⟨[("t".toList, ⟨"t".toList, .working, 0, none, none⟩)], [], 0, none⟩
    ⟨[("t".toList, ⟨"t".toList, .working, 0, none, none⟩)], [], 0, some 5⟩
    ("t".toList) ("t".toList) ⟨[], false⟩ rfl rfl
    ⟨"t".toList, .working, 0, none, none⟩ (by decide) rfl
    ⟨"t".toList, .working, 0, none, none⟩ (by decide) (by decide)
  exact ⟨⟨by decide, by decide, rfl⟩, h.2.1 999, h.2.2.2.2.1 5 (by decide)⟩

/-! ### Detector lemmas -/

theorem mem_stepsFor {limit step x : ℕ} (hstep : 0 < step)
    (hx : x ∈ stepsFor limit step) : x < limit := by
  unfold stepsFor at hx
  rcases List.mem_map.mp hx with ⟨i, hi, rfl⟩
  have hi2 : i + 1 ≤ (limit + step - 1) / step := List.mem_range.mp hi
  have h2 : (i + 1) * step ≤ limit + step - 1 :=
    (Nat.le_div_iff_mul_le hstep).mp hi2
  have h3 : i * step + step ≤ limit + step - 1 := by
    rw [Nat.succ_mul] at h2
    omega
  omega

theorem zero_mem_stepsFor {limit step : ℕ} (hstep : 0 < step)
    (hlimit : 0 < limit) : 0 ∈ stepsFor limit step := by
  unfold stepsFor
  refine List.mem_map.mpr ⟨0, List.mem_range.mpr ?_, by simp⟩
  have : 1 * step ≤ limit + step - 1 := by omega
  have h1 : 1 ≤ (limit + step - 1) / step := (Nat.le_div_iff_mul_le hstep).mpr this
  omega

/-- Every coordinate visited by the border loops is in bounds and on the
border. -/
theorem borderSampleCoords_spec {info : RawInfo} {step : ℕ} (hstep : 0 < step)
    (hw : 0 < info.width) (hh : 0 < info.height) :
    ∀ p ∈ borderSampleCoords info step,
      p.1 < info.width ∧ p.2 < info.height ∧
      (p.1 = 0 ∨ p.1 = info.width - 1 ∨ p.2 = 0 ∨ p.2 = info.height - 1) := by
  intro p hp
  unfold borderSampleCoords at hp
  rcases List.mem_append.mp hp with hm | hm
  · rcases List.mem_flatMap.mp hm with ⟨x0, hx0, hxy⟩
    have hxlt : x0 < info.width := mem_stepsFor hstep hx0
    rcases List.mem_cons.mp hxy with h | h
    · rw [h]; exact ⟨hxlt, hh, Or.inr (Or.inr (Or.inl rfl))⟩
    · rcases List.mem_cons.mp h with h2 | h2
      · rw [h2]
        exact ⟨hxlt, Nat.sub_lt hh Nat.one_pos, Or.inr (Or.inr (Or.inr rfl))⟩
      · exact absurd h2 (List.not_mem_nil p)
  · rcases List.mem_flatMap.mp hm with ⟨y0, hy0, hxy⟩
    have hylt : y0 < info.height := mem_stepsFor hstep hy0
    rcases List.mem_cons.mp hxy with h | h
    · rw [h]; exact ⟨hw, hylt, Or.inl rfl⟩
    · rcases List.mem_cons.mp h with h2 | h2
      · rw [h2]
        exact ⟨Nat.sub_lt hw Nat.one_pos, hylt, Or.inr (Or.inl rfl)⟩
      · exact absurd h2 (List.not_mem_nil p)

/-- Tallying a run of samples that all quantize to the same bucket onto a
single-bucket accumulator just increments that bucket. -/
theorem foldl_addTally_const (q : ℕ) (qc : Color) (l : List Color) (k : ℕ)
    (h : ∀ x ∈ l, quantizeColor q x = qc) :
    l.foldl (fun cs c => addTally cs (quantizeColor q c)) [⟨qc, k⟩] =
      [⟨qc, k + l.length⟩] := by
  induction l generalizing k with
  | nil => simp
  | cons x rest ih =>
      have hx : quantizeColor q x = qc := h x (List.mem_cons_self x rest)
      have hrest : ∀ y ∈ rest, quantizeColor q y = qc :=
        fun y hy => h y (List.mem_cons_of_mem x hy)
      simp only [List.foldl_cons, addTally, hx, if_pos]
      rw [ih (k + 1) hrest]
      simp [Nat.add_assoc, Nat.add_comm 1 rest.length]

/-- Tallying a non-empty run of identically-bucketed samples from the
empty map yields exactly one bucket holding every sample. -/
theorem foldl_addTally_const_all (q : ℕ) (qc : Color) (l : List Color)
    (hne : l ≠ []) (h : ∀ x ∈ l, quantizeColor q x = qc) :
    l.foldl (fun cs c => addTally cs (quantizeColor q c)) [] =
      [⟨qc, l.length⟩] := by
  cases l with
  | nil => exact absurd rfl hne
  | cons x rest =>
      have hx : quantizeColor q x = qc := h x (List.mem_cons_self x rest)
      simp only [List.foldl_cons, addTally, hx]
      rw [foldl_addTally_const q qc rest 1
        (fun y hy => h y (List.mem_cons_of_mem x hy))]
      simp [Nat.add_comm 1 rest.length]

/-- On a buffer whose border samples are all the same color `c`, the
detector returns exactly one candidate — the quantization of `c` — with
coverage `1`, together with the raw sample list. -/
theorem detect_eq_of_const_samples (data : List ℕ) (info : RawInfo)
    (sampleStepOpt quantizeStepOpt maxColorsOpt : Option ℕ) (c : Color)
    (hall : ∀ s ∈ borderSamples data info
      (sampleStepOpt.getD (max 1 (jsRoundDiv (min info.width info.height) 64))), s = c)
    (hne : borderSamples data info
      (sampleStepOpt.getD (max 1 (jsRoundDiv (min info.width info.height) 64))) ≠ []) :
    detectCheckerboardColorsFromBorder data info
        sampleStepOpt quantizeStepOpt maxColorsOpt =
      ⟨[quantizeColor (max 1 (quantizeStepOpt.getD 8)) c],
        (borderSamples data info
          (sampleStepOpt.getD (max 1 (jsRoundDiv (min info.width info.height) 64)))).length,
        1,
        borderSamples data info
          (sampleStepOpt.getD (max 1 (jsRoundDiv (min info.width info.height) 64)))⟩ := by
  have hq2 : ∀ x ∈ borderSamples data info
      (sampleStepOpt.getD (max 1 (jsRoundDiv (min info.width info.height) 64))),
      quantizeColor (max 1 (quantizeStepOpt.getD 8)) x =
        quantizeColor (max 1 (quantizeStepOpt.getD 8)) c := by
    intro x hx
    rw [hall x hx]
  have hfold := foldl_addTally_const_all (max 1 (quantizeStepOpt.getD 8))
    (quantizeColor (max 1 (quantizeStepOpt.getD 8)) c)
    (borderSamples data info
      (sampleStepOpt.getD (max 1 (jsRoundDiv (min info.width info.height) 64))))
    hne hq2
  have hlen : 0 < (borderSamples data info
      (sampleStepOpt.getD (max 1 (jsRoundDiv (min info.width info.height) 64)))).length :=
    List.length_pos.mpr hne
  have htake : ∀ (e : CandidateCount),
      ([e] : List CandidateCount).take (max 1 (maxColorsOpt.getD 2)) = [e] := by
    intro e
    cases hmc : max 1 (maxColorsOpt.getD 2) with
    | zero => exact absurd hmc (by omega)
    | succ m => simp
  have hcov : (((borderSamples data info
      (sampleStepOpt.getD (max 1 (jsRoundDiv (min info.width info.height) 64)))).length : ℚ) + 0) /
      ((borderSamples data info
        (sampleStepOpt.getD (max 1 (jsRoundDiv (min info.width info.height) 64)))).length : ℚ) = 1 := by
    rw [add_zero]
    exact div_self (by exact_mod_cast hlen.ne')
  simp only [detectCheckerboardColorsFromBorder, hfold, jsSortBy, insertSorted, htake,
    List.map_cons, List.map_nil, List.sum_cons, List.sum_nil, if_pos hlen, hcov]

/-- C5 counterexample: a 3×3 RGBA image whose border pixels are all the
solid color `(10, 10, 10)` and whose interior pixel differs. The claim's
precondition holds, coverage is `1`, but the top candidate is the
quantized bucket `(8, 8, 8)`, not the border color itself. -/
theorem detect_top_candidate_is_quantized_not_exact :
    let info : RawInfo := ⟨3, 3, 4⟩
    let c : Color := ⟨10, 10, 10⟩
    let data : List ℕ :=
      [10, 10, 10, 255, 10, 10, 10, 255, 10, 10, 10, 255,
       10, 10, 10, 255, 200, 200, 200, 255, 10, 10, 10, 255,
       10, 10, 10, 255, 10, 10, 10, 255, 10, 10, 10, 255]
    (∀ x, x < 3 → ∀ y, y < 3 → (x = 0 ∨ x = 2 ∨ y = 0 ∨ y = 2) →
      colorAt data info x y = c) ∧
    colorAt data info 1 1 ≠ c ∧
    (detectCheckerboardColorsFromBorder data info none none none).colors.head? =
      some ⟨8, 8, 8⟩ ∧
    (⟨8, 8, 8⟩ : Color) ≠ c ∧
    (detectCheckerboardColorsFromBorder data info none none none).coverage = 1 := by
  intro info c data
  have h := detect_eq_of_const_samples data info none none none c
    (by decide) (by decide)
  refine ⟨by decide, by decide, ?_, by decide, ?_⟩
  · rw [h]
    decide
  · rw [h]

/-- C5 (amended): for a buffer whose border pixels are all one solid
color `c`, the detector's top (indeed only) candidate is the quantization
of `c` to the default step-8 buckets, with coverage `1.0`. -/
theorem detect_solid_border_top_quantized (data : List ℕ) (info : RawInfo)
    (c : Color) (hw : 0 < info.width) (hh : 0 < info.height)
    (hborder : ∀ x, x < info.width → ∀ y, y < info.height →
      (x = 0 ∨ x = info.width - 1 ∨ y = 0 ∨ y = info.height - 1) →
      colorAt data info x y = c) :
    (detectCheckerboardColorsFromBorder data info none none none).colors =
      [quantizeColor 8 c] ∧
    (detectCheckerboardColorsFromBorder data info none none none).coverage = 1 := by
  have hstep : 0 < max 1 (jsRoundDiv (min info.width info.height) 64) :=
    lt_of_lt_of_le Nat.zero_lt_one (le_max_left 1 _)
  have hall : ∀ s ∈ borderSamples data info
      ((none : Option ℕ).getD (max 1 (jsRoundDiv (min info.width info.height) 64))),
      s = c := by
    intro s hs
    simp only [Option.getD_none] at hs
    unfold borderSamples at hs
    rcases List.mem_map.mp hs with ⟨p, hp, rfl⟩
    obtain ⟨h1, h2, h3⟩ := borderSampleCoords_spec hstep hw hh p hp
    exact hborder p.1 h1 p.2 h2 h3
  have hne : borderSamples data info
      ((none : Option ℕ).getD (max 1 (jsRoundDiv (min info.width info.height) 64))) ≠ [] := by
    simp only [Option.getD_none]
    unfold borderSamples
    intro hnil
    have h0 : ((0, 0) : ℕ × ℕ) ∈ borderSampleCoords info
        (max 1 (jsRoundDiv (min info.width info.height) 64)) := by
      unfold borderSampleCoords
      apply List.mem_append.mpr (Or.inl ?_)
      apply List.mem_flatMap.mpr ⟨0, zero_mem_stepsFor hstep hw, ?_⟩
      exact List.mem_cons_self _ _
    have := List.mem_map_of_mem
      (fun p : ℕ × ℕ => colorAt data info p.1 p.2) h0
    rw [hnil] at this
    exact List.not_mem_nil _ this
  rw [detect_eq_of_const_samples data info none none none c hall hne]
  exact ⟨rfl, rfl⟩

/-- Witness for C5 (amended) at a concrete 1×1 image. -/
theorem detect_solid_border_top_quantized_witness :
    (0 < (1 : ℕ) ∧
     (∀ x, x < (RawInfo.mk 1 1 4).width → ∀ y, y < (RawInfo.mk 1 1 4).height →
        (x = 0 ∨ x = (RawInfo.mk 1 1 4).width - 1 ∨ y = 0 ∨
          y = (RawInfo.mk 1 1 4).height - 1) →
        colorAt [10, 10, 10, 255] ⟨1, 1, 4⟩ x y = ⟨10, 10, 10⟩)) ∧
    ((detectCheckerboardColorsFromBorder [10, 10, 10, 255] ⟨1, 1, 4⟩
        none none none).colors = [quantizeColor 8 ⟨10, 10, 10⟩] ∧
     (detectCheckerboardColorsFromBorder [10, 10, 10, 255] ⟨1, 1, 4⟩
        none none none).coverage = 1) :=
  ⟨⟨Nat.zero_lt_one, by decide⟩,
    detect_solid_border_top_quantized [10, 10, 10, 255] ⟨1, 1, 4⟩ ⟨10, 10, 10⟩
      Nat.zero_lt_one Nat.zero_lt_one (by decide)⟩

/-! ### Hex color round-trip (C6) -/

/-- A lowercase hex digit (`[0-9a-f]`). -/
def isLowerHexDigit (c : Char) : Bool :=
  (48 ≤ c.toNat && c.toNat ≤ 57) || (97 ≤ c.toNat && c.toNat ≤ 102)

theorem hexDigitVal_hexDigitChar {n : ℕ} (h : n < 16) :
    hexDigitVal (hexDigitChar n) = n := by
  interval_cases n <;> decide

theorem isHexDigitChar_hexDigitChar {n : ℕ} (h : n < 16) :
    isHexDigitChar (hexDigitChar n) = true := by
  interval_cases n <;> decide

theorem isLowerHexDigit_hexDigitChar {n : ℕ} (h : n < 16) :
    isLowerHexDigit (hexDigitChar n) = true := by
  interval_cases n <;> decide

theorem hexDigitChar_not_whitespace {n : ℕ} (h : n < 16) :
    (hexDigitChar n).isWhitespace = false := by
  interval_cases n <;> decide

/-- `trim` is the identity on whitespace-free strings. -/
theorem jsTrim_eq_self (l : List Char) (h : ∀ c ∈ l, c.isWhitespace = false) :
    jsTrim l = l := by
  unfold jsTrim
  have h1 : l.dropWhile Char.isWhitespace = l := by
    cases l with
    | nil => rfl
    | cons a t =>
        rw [List.dropWhile_cons_of_neg]
        simp [h a (List.mem_cons_self a t)]
  rw [h1]
  have h2 : l.reverse.dropWhile Char.isWhitespace = l.reverse := by
    cases hrev : l.reverse with
    | nil => rfl
    | cons a t =>
        rw [List.dropWhile_cons_of_neg]
        have ha : a ∈ l := by
          rw [← List.mem_reverse, hrev]
          exact List.mem_cons_self a t
        simp [h a ha]
  rw [h2, List.reverse_reverse]

/-- C6: `formatHexColor` always yields `'#'` followed by six lowercase hex
digits, and `parseHexColor` inverts it on every byte-valued Color. -/
theorem parseHex_formatHex_roundtrip (c : Color)
    (hr : c.r ≤ 255) (hg : c.g ≤ 255) (hb : c.b ≤ 255) :
    parseHexColor (formatHexColor c) = .ok c ∧
    (formatHexColor c).length = 7 ∧
    (formatHexColor c).head? = some '#' ∧
    ∀ ch ∈ (formatHexColor c).tail, isLowerHexDigit ch = true := by
  have e1 : clampByteNat c.r = c.r := min_eq_left hr
  have e2 : clampByteNat c.g = c.g := min_eq_left hg
  have e3 : clampByteNat c.b = c.b := min_eq_left hb
  have hn1 : c.r / 16 < 16 := by omega
  have hn2 : c.r % 16 < 16 := Nat.mod_lt _ (by omega)
  have hn3 : c.g / 16 < 16 := by omega
  have hn4 : c.g % 16 < 16 := Nat.mod_lt _ (by omega)
  have hn5 : c.b / 16 < 16 := by omega
  have hn6 : c.b % 16 < 16 := Nat.mod_lt _ (by omega)
  have hfmt : formatHexColor c =
      '#' :: [hexDigitChar (c.r / 16), hexDigitChar (c.r % 16),
              hexDigitChar (c.g / 16), hexDigitChar (c.g % 16),
              hexDigitChar (c.b / 16), hexDigitChar (c.b % 16)] := by
    simp [formatHexColor, toHexByte, e1, e2, e3]
  refine ⟨?_, by rw [hfmt]; rfl, by rw [hfmt]; rfl, ?_⟩
  · rw [hfmt]
    have htrim : jsTrim ('#' :: [hexDigitChar (c.r / 16), hexDigitChar (c.r % 16),
        hexDigitChar (c.g / 16), hexDigitChar (c.g % 16),
        hexDigitChar (c.b / 16), hexDigitChar (c.b % 16)]) =
        '#' :: [hexDigitChar (c.r / 16), hexDigitChar (c.r % 16),
          hexDigitChar (c.g / 16), hexDigitChar (c.g % 16),
          hexDigitChar (c.b / 16), hexDigitChar (c.b % 16)] := by
      apply jsTrim_eq_self
      intro ch hch
      simp only [List.mem_cons, List.not_mem_nil, or_false] at hch
      rcases hch with rfl | rfl | rfl | rfl | rfl | rfl | rfl
      · decide
      · exact hexDigitChar_not_whitespace hn1
      · exact hexDigitChar_not_whitespace hn2
      · exact hexDigitChar_not_whitespace hn3
      · exact hexDigitChar_not_whitespace hn4
      · exact hexDigitChar_not_whitespace hn5
      · exact hexDigitChar_not_whitespace hn6
    simp only [parseHexColor, htrim]
    rw [if_pos]
    · simp only [hexDigitVal_hexDigitChar hn1, hexDigitVal_hexDigitChar hn2,
        hexDigitVal_hexDigitChar hn3, hexDigitVal_hexDigitChar hn4,
        hexDigitVal_hexDigitChar hn5, hexDigitVal_hexDigitChar hn6]
      congr 1
      cases c
      simp only [Color.mk.injEq]
      omega
    · simp only [List.all_cons, List.all_nil,
        isHexDigitChar_hexDigitChar hn1, isHexDigitChar_hexDigitChar hn2,
        isHexDigitChar_hexDigitChar hn3, isHexDigitChar_hexDigitChar hn4,
        isHexDigitChar_hexDigitChar hn5, isHexDigitChar_hexDigitChar hn6,
        Bool.and_self]
  · rw [hfmt]
    intro ch hch
    simp only [List.tail_cons, List.mem_cons, List.not_mem_nil, or_false] at hch
    rcases hch with rfl | rfl | rfl | rfl | rfl | rfl
    · exact isLowerHexDigit_hexDigitChar hn1
    · exact isLowerHexDigit_hexDigitChar hn2
    · exact isLowerHexDigit_hexDigitChar hn3
    · exact isLowerHexDigit_hexDigitChar hn4
    · exact isLowerHexDigit_hexDigitChar hn5
    · exact isLowerHexDigit_hexDigitChar hn6

/-- Witness for C6 at `#abcdef`, i.e. `(171, 205, 239)`. -/
theorem parseHex_formatHex_roundtrip_witness :
    ((171 : ℕ) ≤ 255 ∧ (205 : ℕ) ≤ 255 ∧ (239 : ℕ) ≤ 255) ∧
    (parseHexColor (formatHexColor ⟨171, 205, 239⟩) = .ok ⟨171, 205, 239⟩ ∧
     (formatHexColor ⟨171, 205, 239⟩).length = 7 ∧
     (formatHexColor ⟨171, 205, 239⟩).head? = some '#' ∧
     ∀ ch ∈ (formatHexColor ⟨171, 205, 239⟩).tail, isLowerHexDigit ch = true) :=
  ⟨by decide,
    parseHex_formatHex_roundtrip ⟨171, 205, 239⟩ (by decide) (by decide) (by decide)⟩

/-! ### Compositor lemmas (C2, C10) -/

/-- A decoded RGBA pixel (4 channels, the `ensureAlpha` layout). -/
structure Pixel where
  r : ℕ
  g : ℕ
  b : ℕ
  a : ℕ
deriving DecidableEq, Repr

/-- The flat byte view of a pixel list. -/
def flattenPixels (ps : List Pixel) : List ℕ :=
  ps.flatMap (fun p => [p.r, p.g, p.b, p.a])

/-- What one iteration of the compositor loop does to one pixel. -/
noncomputable def keyPixel (colors : List Color) (tolerance feather : ℕ)
    (p : Pixel) : Pixel :=
  ⟨p.r, p.g, p.b,
    keyedAlpha p.a (minDistSqTo ⟨p.r, p.g, p.b⟩ colors) tolerance feather⟩

theorem applyKeyToData_flattenPixels (colors : List Color) (tol f : ℕ)
    (ps : List Pixel) :
    applyKeyToData colors tol f (flattenPixels ps) =
      flattenPixels (ps.map (keyPixel colors tol f)) := by
  induction ps with
  | nil => rfl
  | cons p rest ih =>
      show applyKeyToData colors tol f
          (p.r :: p.g :: p.b :: p.a :: flattenPixels rest) =
        p.r :: p.g :: p.b ::
          keyedAlpha p.a (minDistSqTo ⟨p.r, p.g, p.b⟩ colors) tol f ::
          flattenPixels (rest.map (keyPixel colors tol f))
      rw [show applyKeyToData colors tol f
          (p.r :: p.g :: p.b :: p.a :: flattenPixels rest) =
          p.r :: p.g :: p.b ::
            keyedAlpha p.a (minDistSqTo ⟨p.r, p.g, p.b⟩ colors) tol f ::
            applyKeyToData colors tol f (flattenPixels rest) from rfl, ih]

/-- Length and non-alpha bytes are untouched by the per-pixel loop. -/
theorem applyKeyToData_preserves (colors : List Color) (tol f : ℕ) :
    ∀ (n : ℕ) (data : List ℕ), data.length ≤ n →
      (applyKeyToData colors tol f data).length = data.length ∧
      ∀ i : ℕ, i % 4 ≠ 3 →
        (applyKeyToData colors tol f data).getD i 0 = data.getD i 0 := by
  intro n
  induction n with
  | zero =>
      intro data hlen
      have : data = [] := List.eq_nil_of_length_eq_zero (Nat.le_zero.mp hlen)
      subst this
      exact ⟨rfl, fun i _ => rfl⟩
  | succ n ih =>
      intro data hlen
      match data with
      | [] => exact ⟨rfl, fun i _ => rfl⟩
      | [r] => exact ⟨rfl, fun i _ => rfl⟩
      | [r, g] => exact ⟨rfl, fun i _ => rfl⟩
      | [r, g, b] => exact ⟨rfl, fun i _ => rfl⟩
      | r :: g :: b :: a :: rest =>
          have hrest : rest.length ≤ n := by
            simp only [List.length_cons] at hlen
            omega
          obtain ⟨ihlen, ihget⟩ := ih rest hrest
          constructor
          · simp only [applyKeyToData, List.length_cons, ihlen]
          · intro i hi
            match i, hi with
            | 0, _ => rfl
            | 1, _ => rfl
            | 2, _ => rfl
            | 3, h => exact absurd rfl h
            | (m + 4), h =>
                have hm : m % 4 ≠ 3 := by omega
                simpa only [applyKeyToData, List.getD_cons_succ] using ihget m hm

/-- C10: the compositor rewrites only alpha bytes — the result has the
same length, every byte at a non-alpha offset is unchanged, and the
buffer is re-encoded with the identical width/height/channels info. -/
theorem applyMultiColorKey_preserves_rgb_and_info (data : List ℕ)
    (info : RawInfo) (colors : List Color) (toleranceOpt featherOpt : Option ℕ)
    (hcolors : colors ≠ []) :
    ∃ out : List ℕ,
      applyMultiColorKeyToRaw data info colors toleranceOpt featherOpt =
        .ok (out, info) ∧
      out.length = data.length ∧
      ∀ i : ℕ, i % 4 ≠ 3 → out.getD i 0 = data.getD i 0 := by
  refine ⟨applyKeyToData colors (clampByteNat (toleranceOpt.getD 12))
    (clampByteNat (featherOpt.getD 0)) data, ?_, ?_, ?_⟩
  · simp only [applyMultiColorKeyToRaw, if_neg hcolors]
  · exact (applyKeyToData_preserves colors _ _ data.length data le_rfl).1
  · exact (applyKeyToData_preserves colors _ _ data.length data le_rfl).2

/-- Witness for C10 on a 13-byte buffer (one trailing fragment). -/
theorem applyMultiColorKey_preserves_rgb_and_info_witness :
    ([(⟨0, 0, 0⟩ : Color)] ≠ []) ∧
    (∃ out : List ℕ,
      applyMultiColorKeyToRaw [9, 8, 7, 6, 5, 4, 3, 2, 1, 0, 9, 8, 7] ⟨2, 2, 4⟩
          [⟨0, 0, 0⟩] (some 12) (some 3) = .ok (out, ⟨2, 2, 4⟩) ∧
      out.length = ([9, 8, 7, 6, 5, 4, 3, 2, 1, 0, 9, 8, 7] : List ℕ).length ∧
      ∀ i : ℕ, i % 4 ≠ 3 →
        out.getD i 0 = ([9, 8, 7, 6, 5, 4, 3, 2, 1, 0, 9, 8, 7] : List ℕ).getD i 0) :=
  ⟨by decide,
    applyMultiColorKey_preserves_rgb_and_info [9, 8, 7, 6, 5, 4, 3, 2, 1, 0, 9, 8, 7]
      ⟨2, 2, 4⟩ [⟨0, 0, 0⟩] (some 12) (some 3) (by decide)⟩

theorem minDistSqTo_nonneg (p : Color) (colors : List Color)
    (h : colors ≠ []) : 0 ≤ minDistSqTo p colors := by
  cases colors with
  | nil => exact absurd rfl h
  | cons c rest =>
      unfold minDistSqTo
      have hfold : ∀ (l : List Color) (init : ℤ), 0 ≤ init →
          0 ≤ l.foldl (fun m c2 => min m (distSq p c2)) init := by
        intro l
        induction l with
        | nil => intro init h0; exact h0
        | cons x xs ih =>
            intro init h0
            exact ih _ (le_min h0 (distSq_nonneg p x))
      exact hfold rest _ (distSq_nonneg p c)

theorem jsRound_zero : jsRound 0 = 0 := by
  unfold jsRound
  rw [zero_add]
  exact Int.floor_eq_zero_iff.mpr ⟨by norm_num, by norm_num⟩

theorem clampByte_zero : clampByte 0 = 0 := by
  unfold clampByte
  rw [if_neg (lt_irrefl 0), if_neg (by norm_num), jsRound_zero]
  rfl

/-- Inside the tolerance ball the computed alpha is `0`. -/
theorem keyedAlpha_within (a : ℕ) (minD : ℤ) (tol f : ℕ)
    (h : minD ≤ (tol : ℤ) * tol) : keyedAlpha a minD tol f = 0 := by
  unfold keyedAlpha alphaFactor
  rw [if_pos h, mul_zero, clampByte_zero]

/-- Strictly inside the feather band the computed alpha is the scaled,
rounded original alpha. -/
theorem keyedAlpha_band (a : ℕ) (minD : ℤ) (tol f : ℕ)
    (h1 : ¬ minD ≤ (tol : ℤ) * tol) (h2 : 0 < f)
    (h3 : minD < ((tol : ℤ) + f) * ((tol : ℤ) + f)) :
    keyedAlpha a minD tol f =
      clampByte ((a : ℝ) * ((Real.sqrt (minD : ℝ) - (tol : ℝ)) / (f : ℝ))) := by
  unfold keyedAlpha alphaFactor
  rw [if_neg h1, if_pos ⟨h2, h3⟩]

/-- Outside tolerance and feather the alpha byte is returned unchanged. -/
theorem keyedAlpha_outside (a : ℕ) (minD : ℤ) (tol f : ℕ) (ha : a ≤ 255)
    (h1 : ¬ minD ≤ (tol : ℤ) * tol)
    (h2 : ¬ (0 < f ∧ minD < ((tol : ℤ) + f) * ((tol : ℤ) + f))) :
    keyedAlpha a minD tol f = a := by
  unfold keyedAlpha alphaFactor
  rw [if_neg h1, if_neg h2, mul_one, clampByte_natCast]
  exact min_eq_left ha

/-- The per-pixel behavior exactly as the claim's sentence reads
("within" = `≤`): minimum squared distance within `tolerance²` zeroes the
alpha; else, with `feather > 0` and the distance within
`(tolerance + feather)²`, the original alpha is scaled by
`(d - tolerance) / feather`, a factor in `[0, 1]`; otherwise the alpha is
unchanged. -/
def specKeyedPixel (colors : List Color) (tolerance feather : ℕ)
    (p q : Pixel) : Prop :=
  q.r = p.r ∧ q.g = p.g ∧ q.b = p.b ∧
  (minDistSqTo ⟨p.r, p.g, p.b⟩ colors ≤ (tolerance : ℤ) * tolerance →
    q.a = 0) ∧
  (¬ minDistSqTo ⟨p.r, p.g, p.b⟩ colors ≤ (tolerance : ℤ) * tolerance →
    0 < feather →
    minDistSqTo ⟨p.r, p.g, p.b⟩ colors ≤
      ((tolerance : ℤ) + feather) * ((tolerance : ℤ) + feather) →
    0 ≤ (Real.sqrt ((minDistSqTo ⟨p.r, p.g, p.b⟩ colors : ℤ) : ℝ) -
        (tolerance : ℝ)) / (feather : ℝ) ∧
    (Real.sqrt ((minDistSqTo ⟨p.r, p.g, p.b⟩ colors : ℤ) : ℝ) -
        (tolerance : ℝ)) / (feather : ℝ) ≤ 1 ∧
    q.a = clampByte ((p.a : ℝ) *
      ((Real.sqrt ((minDistSqTo ⟨p.r, p.g, p.b⟩ colors : ℤ) : ℝ) -
        (tolerance : ℝ)) / (feather : ℝ)))) ∧
  (¬ minDistSqTo ⟨p.r, p.g, p.b⟩ colors ≤ (tolerance : ℤ) * tolerance →
    ¬ (0 < feather ∧ minDistSqTo ⟨p.r, p.g, p.b⟩ colors ≤
      ((tolerance : ℤ) + feather) * ((tolerance : ℤ) + feather)) →
    q.a = p.a)

/-- C2: on an RGBA buffer with byte-valued alphas, any non-empty
reference color list and tolerance/feather in `[0, 255]`, the compositor
succeeds and sets every pixel's alpha exactly as the claim describes. -/
theorem applyMultiColorKey_alpha_spec (ps : List Pixel) (info : RawInfo)
    (colors : List Color) (tolerance feather : ℕ)
    (hcolors : colors ≠ []) (htol : tolerance ≤ 255)
    (hfeather : feather ≤ 255) (halpha : ∀ p ∈ ps, p.a ≤ 255) :
    applyMultiColorKeyToRaw (flattenPixels ps) info colors
        (some tolerance) (some feather) =
      .ok (flattenPixels (ps.map (keyPixel colors tolerance feather)), info) ∧
    ∀ p ∈ ps, specKeyedPixel colors tolerance feather p
      (keyPixel colors tolerance feather p) := by
  have htol2 : clampByteNat tolerance = tolerance := min_eq_left htol
  have hfeather2 : clampByteNat feather = feather := min_eq_left hfeather
  constructor
  · simp only [applyMultiColorKeyToRaw, if_neg hcolors, Option.getD_some,
      htol2, hfeather2, applyKeyToData_flattenPixels]
  · intro p hp
    have hminD0 : (0 : ℤ) ≤ minDistSqTo ⟨p.r, p.g, p.b⟩ colors :=
      minDistSqTo_nonneg ⟨p.r, p.g, p.b⟩ colors hcolors
    refine ⟨rfl, rfl, rfl, ?_, ?_, ?_⟩
    · intro h
      exact keyedAlpha_within p.a _ tolerance feather h
    · intro h1 h2 h3
      have hf0 : (0 : ℝ) < (feather : ℝ) := by exact_mod_cast h2
      have hlow : (tolerance : ℝ) ≤ Real.sqrt ((minDistSqTo ⟨p.r, p.g, p.b⟩ colors : ℤ) : ℝ) := by
        have hlt : ((tolerance : ℝ)) ^ 2 < ((minDistSqTo ⟨p.r, p.g, p.b⟩ colors : ℤ) : ℝ) := by
          have : (tolerance : ℤ) * tolerance < minDistSqTo ⟨p.r, p.g, p.b⟩ colors :=
            lt_of_not_le h1
          rw [sq]
          exact_mod_cast this
        exact ((Real.lt_sqrt (by positivity)).mpr hlt).le
      have hhigh : Real.sqrt ((minDistSqTo ⟨p.r, p.g, p.b⟩ colors : ℤ) : ℝ) ≤
          (tolerance : ℝ) + (feather : ℝ) := by
        have hle : ((minDistSqTo ⟨p.r, p.g, p.b⟩ colors : ℤ) : ℝ) ≤
            ((tolerance : ℝ) + (feather : ℝ)) ^ 2 := by
          rw [sq]
          exact_mod_cast h3
        calc Real.sqrt ((minDistSqTo ⟨p.r, p.g, p.b⟩ colors : ℤ) : ℝ)
            ≤ Real.sqrt (((tolerance : ℝ) + (feather : ℝ)) ^ 2) :=
              Real.sqrt_le_sqrt hle
          _ = (tolerance : ℝ) + (feather : ℝ) := Real.sqrt_sq (by positivity)
      refine ⟨div_nonneg (sub_nonneg.mpr hlow) hf0.le, ?_, ?_⟩
      · rw [div_le_one hf0]
        linarith
      · rcases lt_or_eq_of_le h3 with hlt | heq
        · exact keyedAlpha_band p.a _ tolerance feather h1 h2 hlt
        · have hsq : ((minDistSqTo ⟨p.r, p.g, p.b⟩ colors : ℤ) : ℝ) =
              ((tolerance : ℝ) + (feather : ℝ)) ^ 2 := by
            rw [sq]
            exact_mod_cast heq
          have hfac : (Real.sqrt ((minDistSqTo ⟨p.r, p.g, p.b⟩ colors : ℤ) : ℝ) -
              (tolerance : ℝ)) / (feather : ℝ) = 1 := by
            rw [hsq, Real.sqrt_sq (by positivity)]
            field_simp
          rw [hfac, mul_one]
          unfold keyPixel keyedAlpha alphaFactor
          rw [if_neg h1, if_neg (by
            intro hcon
            exact absurd hcon.2 (by rw [heq]; exact lt_irrefl _)), mul_one]
    · intro h1 h2
      apply keyedAlpha_outside p.a _ tolerance feather (halpha p hp) h1
      intro hcon
      exact h2 ⟨hcon.1, hcon.2.le⟩

/-- Witness for C2 at a one-pixel buffer matching the reference color. -/
theorem applyMultiColorKey_alpha_spec_witness :
    (([(⟨10, 20, 30⟩ : Color)] ≠ []) ∧ (3 : ℕ) ≤ 255 ∧ (4 : ℕ) ≤ 255 ∧
      ∀ p ∈ [(⟨10, 20, 30, 200⟩ : Pixel)], p.a ≤ 255) ∧
    (applyMultiColorKeyToRaw (flattenPixels [⟨10, 20, 30, 200⟩]) ⟨1, 1, 4⟩
        [⟨10, 20, 30⟩] (some 3) (some 4) =
      .ok (flattenPixels ([(⟨10, 20, 30, 200⟩ : Pixel)].map
        (keyPixel [⟨10, 20, 30⟩] 3 4)), ⟨1, 1, 4⟩) ∧
     ∀ p ∈ [(⟨10, 20, 30, 200⟩ : Pixel)],
       specKeyedPixel [⟨10, 20, 30⟩] 3 4 p (keyPixel [⟨10, 20, 30⟩] 3 4 p)) :=
  ⟨⟨by decide, by decide, by decide, by decide⟩,
    applyMultiColorKey_alpha_spec [⟨10, 20, 30, 200⟩] ⟨1, 1, 4⟩ [⟨10, 20, 30⟩]
      3 4 (by decide) (by decide) (by decide) (by decide)⟩

/-! ### Auto-key transparency (C3) -/

/-- The tolerance formula as the claim's sentence reads: the 90th
percentile of the border samples' minimum distances to the selected
colors, plus the fixed safety margin 6, clamped into `[0, 255]` — with no
rounding step. Since the square root is monotone, the rank-`⌊0.9·n⌋`
entry of the ascending distances is the square root of the
rank-`⌊0.9·n⌋` entry of the ascending squared distances, so the
percentile is read off the squared distances and rooted. -/
noncomputable def specAutoTolerance (samples : List Color)
    (selectedColors : List Color) : ℝ :=
  min 255 (max 0 (Real.sqrt ((autoPercentileSq samples selectedColors : ℕ) : ℝ) + 6))

/-- C3 counterexample: ten border samples whose 90th-percentile minimum
squared distance is `5`. The code computes
`clampByte (ceil (sqrt 5) + 6) = 9`; the claim's formula yields
`√5 + 6 ≈ 8.24`. -/
theorem autoTolerance_differs_from_claim_formula :
    autoTolerance
        [⟨0, 0, 0⟩, ⟨0, 0, 0⟩, ⟨0, 0, 0⟩, ⟨0, 0, 0⟩, ⟨0, 0, 0⟩,
         ⟨0, 0, 0⟩, ⟨0, 0, 0⟩, ⟨0, 0, 0⟩, ⟨0, 0, 0⟩, ⟨1, 2, 0⟩]
        [⟨0, 0, 0⟩] = 9 ∧
    specAutoTolerance
        [⟨0, 0, 0⟩, ⟨0, 0, 0⟩, ⟨0, 0, 0⟩, ⟨0, 0, 0⟩, ⟨0, 0, 0⟩,
         ⟨0, 0, 0⟩, ⟨0, 0, 0⟩, ⟨0, 0, 0⟩, ⟨0, 0, 0⟩, ⟨1, 2, 0⟩]
        [⟨0, 0, 0⟩] = Real.sqrt 5 + 6 ∧
    (9 : ℝ) ≠ Real.sqrt 5 + 6 := by
  have hsqrt5lt : Real.sqrt 5 < 3 := by
    rw [Real.sqrt_lt' (by norm_num)]
    norm_num
  have hsqrt5ge : (0 : ℝ) ≤ Real.sqrt 5 := Real.sqrt_nonneg 5
  have hp : autoPercentileSq
      [⟨0, 0, 0⟩, ⟨0, 0, 0⟩, ⟨0, 0, 0⟩, ⟨0, 0, 0⟩, ⟨0, 0, 0⟩,
       ⟨0, 0, 0⟩, ⟨0, 0, 0⟩, ⟨0, 0, 0⟩, ⟨0, 0, 0⟩, ⟨1, 2, 0⟩]
      [⟨0, 0, 0⟩] = 5 := by decide
  have hceil : natCeilSqrt 5 = 3 := by
    have h := natCeilSqrt_eq_ceil 5
    have hc : ⌈Real.sqrt ((5 : ℕ) : ℝ)⌉ = 3 := by
      rw [Int.ceil_eq_iff]
      constructor
      · push_cast
        have h2 : (2 : ℝ) < Real.sqrt 5 := by
          rw [Real.lt_sqrt (by norm_num)]
          norm_num
        linarith
      · push_cast
        linarith
    rw [hc] at h
    exact_mod_cast h
  refine ⟨?_, ?_, ?_⟩
  · unfold autoTolerance
    rw [hp, hceil]
    rfl
  · unfold specAutoTolerance
    rw [hp]
    rw [show ((5 : ℕ) : ℝ) = (5 : ℝ) by norm_num]
    rw [max_eq_right (by linarith), min_eq_right (by linarith)]
  · intro h
    have h3 : Real.sqrt 5 = 3 := by linarith
    rw [h3] at hsqrt5lt
    norm_num at hsqrt5lt

/-- C3 (amended): the fallback selection is as claimed (fallback as the
single reference color when coverage is below 0.5 or nothing was
detected, error when no fallback exists), and the auto-estimated
tolerance is the CEILING of the 90th-percentile minimum distance, plus
the margin 6, clamped to `[0, 255]`. -/
theorem applyAutoKey_fallback_and_ceil_tolerance (data : List ℕ)
    (info : RawInfo) (fb : Option Color)
    (featherOpt sOpt qOpt mOpt : Option ℕ) :
    (((detectCheckerboardColorsFromBorder data info sOpt qOpt mOpt).coverage < 1 / 2 ∨
      (detectCheckerboardColorsFromBorder data info sOpt qOpt mOpt).colors = []) →
      (fb = none →
        applyAutoKeyTransparency data info fb none featherOpt sOpt qOpt mOpt =
          .error ("Failed to detect background colors for transparency.".toList)) ∧
      (∀ c, fb = some c →
        applyAutoKeyTransparency data info fb none featherOpt sOpt qOpt mOpt =
          (applyMultiColorKeyToRaw data info [c]
            (some (autoTolerance
              (detectCheckerboardColorsFromBorder data info sOpt qOpt mOpt).samples
              [c])) featherOpt).map
            (fun out => ⟨out, [c],
              (detectCheckerboardColorsFromBorder data info sOpt qOpt mOpt).coverage,
              true⟩))) ∧
    (¬ ((detectCheckerboardColorsFromBorder data info sOpt qOpt mOpt).coverage < 1 / 2 ∨
      (detectCheckerboardColorsFromBorder data info sOpt qOpt mOpt).colors = []) →
      applyAutoKeyTransparency data info fb none featherOpt sOpt qOpt mOpt =
        (applyMultiColorKeyToRaw data info
          (detectCheckerboardColorsFromBorder data info sOpt qOpt mOpt).colors
          (some (autoTolerance
            (detectCheckerboardColorsFromBorder data info sOpt qOpt mOpt).samples
            (detectCheckerboardColorsFromBorder data info sOpt qOpt mOpt).colors))
          featherOpt).map
          (fun out => ⟨out,
            (detectCheckerboardColorsFromBorder data info sOpt qOpt mOpt).colors,
            (detectCheckerboardColorsFromBorder data info sOpt qOpt mOpt).coverage,
            false⟩)) ∧
    (∀ S C : List Color, (autoTolerance S C : ℤ) =
      min 255 (⌈Real.sqrt ((autoPercentileSq S C : ℕ) : ℝ)⌉ + 6)) := by
  refine ⟨?_, ?_, ?_⟩
  · intro hcond
    constructor
    · intro hfb
      subst hfb
      have hsel : selectKeyColors
          (detectCheckerboardColorsFromBorder data info sOpt qOpt mOpt).colors
          (detectCheckerboardColorsFromBorder data info sOpt qOpt mOpt).coverage
          none =
          .error ("Failed to detect background colors for transparency.".toList) := by
        unfold selectKeyColors
        rw [if_pos hcond]
      simp only [applyAutoKeyTransparency, hsel]
    · intro c hfb
      subst hfb
      have hsel : selectKeyColors
          (detectCheckerboardColorsFromBorder data info sOpt qOpt mOpt).colors
          (detectCheckerboardColorsFromBorder data info sOpt qOpt mOpt).coverage
          (some c) = .ok ([c], true) := by
        unfold selectKeyColors
        rw [if_pos hcond]
      simp only [applyAutoKeyTransparency, hsel]
      cases happ : applyMultiColorKeyToRaw data info [c]
          (some (autoTolerance
            (detectCheckerboardColorsFromBorder data info sOpt qOpt mOpt).samples
            [c])) featherOpt with
      | error e => simp [happ, Except.map]
      | ok out => simp [happ, Except.map]
  · intro hcond
    have hsel : selectKeyColors
        (detectCheckerboardColorsFromBorder data info sOpt qOpt mOpt).colors
        (detectCheckerboardColorsFromBorder data info sOpt qOpt mOpt).coverage
        fb = .ok
          ((detectCheckerboardColorsFromBorder data info sOpt qOpt mOpt).colors,
            false) := by
      unfold selectKeyColors
      rw [if_neg hcond]
    simp only [applyAutoKeyTransparency, hsel]
    cases happ : applyMultiColorKeyToRaw data info
        (detectCheckerboardColorsFromBorder data info sOpt qOpt mOpt).colors
        (some (autoTolerance
          (detectCheckerboardColorsFromBorder data info sOpt qOpt mOpt).samples
          (detectCheckerboardColorsFromBorder data info sOpt qOpt mOpt).colors))
        featherOpt with
    | error e => simp [happ, Except.map]
    | ok out => simp [happ, Except.map]
  · intro S C
    unfold autoTolerance clampByteNat
    rw [Nat.cast_min]
    push_cast [natCeilSqrt_eq_ceil]
    rw [min_comm]

/-- Witness for C3 (amended) at a 1×1 solid-black image: detection is
reliable (coverage 1), so the detector's colors are keyed with the
auto-estimated tolerance and no fallback is consumed. -/
theorem applyAutoKey_fallback_and_ceil_tolerance_witness :
    (¬ ((detectCheckerboardColorsFromBorder [0, 0, 0, 255] ⟨1, 1, 4⟩
        none none none).coverage < 1 / 2 ∨
      (detectCheckerboardColorsFromBorder [0, 0, 0, 255] ⟨1, 1, 4⟩
        none none none).colors = [])) ∧
    applyAutoKeyTransparency [0, 0, 0, 255] ⟨1, 1, 4⟩ (some ⟨0, 255, 0⟩) none
        (some 0) none none none =
      (applyMultiColorKeyToRaw [0, 0, 0, 255] ⟨1, 1, 4⟩
        (detectCheckerboardColorsFromBorder [0, 0, 0, 255] ⟨1, 1, 4⟩
          none none none).colors
        (some (autoTolerance
          (detectCheckerboardColorsFromBorder [0, 0, 0, 255] ⟨1, 1, 4⟩
            none none none).samples
          (detectCheckerboardColorsFromBorder [0, 0, 0, 255] ⟨1, 1, 4⟩
            none none none).colors)) (some 0)).map
        (fun out => ⟨out,
          (detectCheckerboardColorsFromBorder [0, 0, 0, 255] ⟨1, 1, 4⟩
            none none none).colors,
          (detectCheckerboardColorsFromBorder [0, 0, 0, 255] ⟨1, 1, 4⟩
            none none none).coverage,
          false⟩) := by
  have hdet := detect_eq_of_const_samples [0, 0, 0, 255] ⟨1, 1, 4⟩
    none none none ⟨0, 0, 0⟩ (by decide) (by decide)
  have hcond : ¬ ((detectCheckerboardColorsFromBorder [0, 0, 0, 255] ⟨1, 1, 4⟩
      none none none).coverage < 1 / 2 ∨
      (detectCheckerboardColorsFromBorder [0, 0, 0, 255] ⟨1, 1, 4⟩
        none none none).colors = []) := by
    rw [hdet]
    push_neg
    constructor
    · norm_num
    · simp
  exact ⟨hcond,
    (applyAutoKey_fallback_and_ceil_tolerance [0, 0, 0, 255] ⟨1, 1, 4⟩
      (some ⟨0, 255, 0⟩) (some 0) none none none).2.1 hcond⟩

end NanoBanana
